import Mathlib

/-!
A verification development for the carbon-aware slot allocation engine in
`carbon_calculation.py`.  The Python code is shallowly embedded below:
Python floats become rationals (the spec fixes exact arithmetic semantics:
"no rounding is applied mid-computation"), `datetime.timedelta` durations
become their value in hours as a rational, the mutable `CloudScheduler`
object becomes an explicit `SchedState` value threaded through the
operations, and operations that can raise a Python exception
(`KeyError` on an unknown hardware name, `ZeroDivisionError` on a zero
duration) return `Option`, with `none` for the exception.
-/

/-- One hardware profile from `CloudScheduler.hardware_specs`.  The fields
`clock_speed`, `mflo_per_sec` and `watts_per_mflop` of the Xeon entry are
used only by `time_taken`, which no verified operation calls, and are
omitted.  `tdp` and `tdp_coefficient` are absent from the Xeon entry in the
source, so they are `Option`-valued here (access raises `KeyError`). -/
structure HardwareSpec where
  cores : ℚ
  embodied_carbon : ℚ
  /-- lifetime in hours; `AVG_HARDWARE_USAGE_PER_YR_HRS = 8760` hours. -/
  lifetime : ℚ
  tdp : Option ℚ
  tdp_coefficient : Option ℚ
deriving DecidableEq

/-- The `"xeon_platinum_8124"` catalog entry (no `tdp` keys). -/
def xeon_spec : HardwareSpec :=
  { cores := 18, embodied_carbon := 1344.1, lifetime := 8760 * 5,
    tdp := none, tdp_coefficient := none }

/-- The `"amd_epyc_7571"` catalog entry. -/
def amd_spec : HardwareSpec :=
  { cores := 32, embodied_carbon := 1610.40, lifetime := 8760 * 4.5,
    tdp := some 120, tdp_coefficient := some 0.3 }

/-- `CloudScheduler.hardware_specs`: the static catalog, keyed by name;
an unknown name raises `KeyError` in Python, i.e. `none` here. -/
def hardware_specs : String → Option HardwareSpec
  | "xeon_platinum_8124" => some xeon_spec
  | "amd_epyc_7571" => some amd_spec
  | _ => none

/-- A job dictionary as consumed by the engine.  `time` is the duration in
hours (`job["time"] / datetime.timedelta(hours=1)`). -/
structure Job where
  id : ℕ
  server_utilization : ℚ
  time : ℚ
  hardware : String
  carbon_budget : ℚ
deriving DecidableEq

/-- `HourlyAllocation`: one of the 24 per-hour slot records.  `jobs` holds
the appended `{"id": ..., "time": ...}` entries as (id, fractional hours). -/
structure HourlyAllocation where
  energy : ℚ
  jobs : List (ℕ × ℚ)
deriving DecidableEq

/-- The mutable state of a `CloudScheduler` instance: the 24-entry
intensity forecast (`intensity_data[idx]["AvgCarbonIntensity"]`), the 24
`HourlyAllocation` records, and the `job_carbon` log. -/
structure SchedState where
  intensity_data : Fin 24 → ℚ
  current_allocation : Fin 24 → HourlyAllocation
  job_carbon : List ℚ

instance : DecidableEq SchedState := fun a b =>
  if h : a.intensity_data = b.intensity_data ∧
      a.current_allocation = b.current_allocation ∧ a.job_carbon = b.job_carbon then
    isTrue (by cases a; cases b; simp only at h; simp [h.1, h.2.1, h.2.2])
  else
    isFalse (by intro he; cases he; exact h ⟨rfl, rfl, rfl⟩)

/-- `CloudScheduler.embodied_carbon`:
`(job["time"] / hw["lifetime"]) * hw["embodied_carbon"]`;
`none` models the `KeyError` on an unknown hardware name. -/
def embodied_carbon (job : Job) : Option ℚ :=
  (hardware_specs job.hardware).map fun hw =>
    job.time / hw.lifetime * hw.embodied_carbon

/-- `CloudScheduler.energy_consumed`:
`job["server_utilization"] * (job["time"]/1hr) * hw["cores"] * hw["tdp"] * hw["tdp_coefficient"] / 1e6`
(MWh); `none` models the `KeyError` on an unknown hardware name or on a
profile that lacks the `tdp` fields (the Xeon entry). -/
def energy_consumed (job : Job) : Option ℚ := do
  let hw ← hardware_specs job.hardware
  let t ← hw.tdp
  let c ← hw.tdp_coefficient
  pure (job.server_utilization * job.time * hw.cores * t * c / 1000000)

/-- `CloudScheduler.energy_per_hr`: `energy_consumed(job) / time_required_hrs`;
`none` additionally models the `ZeroDivisionError` when the duration is 0. -/
def energy_per_hr (job : Job) : Option ℚ := do
  let e ← energy_consumed job
  if job.time = 0 then none else pure (e / job.time)

/-- `CloudScheduler.get_intensity`. -/
def get_intensity (s : SchedState) (idx : Fin 24) : ℚ :=
  s.intensity_data idx

/-- The congestion constant `3.5e6` inlined in `get_adjusted_intensity`. -/
def congestion_K : ℚ := 3.5e6

/-- `CloudScheduler.get_adjusted_intensity`:
`intensity[idx] + 3.5e6 * current_allocation[idx].energy / intensity[idx]`. -/
def get_adjusted_intensity (s : SchedState) (idx : Fin 24) : ℚ :=
  s.intensity_data idx +
    congestion_K * (s.current_allocation idx).energy / s.intensity_data idx

/-- The score used by `get_best_slots_v1` for one hour:
`self.get_adjusted_intensity(idx) if dampen else self.get_intensity(idx)`. -/
def slot_score (s : SchedState) (dampen : Bool) (idx : Fin 24) : ℚ :=
  if dampen then get_adjusted_intensity s idx else get_intensity s idx

/-- The list `after` of `get_best_slots_v1`: the pairs `(idx, score idx)`
for `idx in range(24)`, in hour order. -/
def slots_after (s : SchedState) (dampen : Bool) : List (Fin 24 × ℚ) :=
  (List.finRange 24).map fun idx => (idx, slot_score s dampen idx)

/-- The comparison `key=lambda o: o[1]` that Python's `sorted` sorts by. -/
def score_le (a b : Fin 24 × ℚ) : Prop := a.2 ≤ b.2

instance : DecidableRel score_le := fun a b => inferInstanceAs (Decidable (a.2 ≤ b.2))

instance : IsTotal (Fin 24 × ℚ) score_le := ⟨fun a b => le_total a.2 b.2⟩

instance : IsTrans (Fin 24 × ℚ) score_le := ⟨fun _ _ _ hab hbc => le_trans hab hbc⟩

/-- Strictly-ascending-score-or-tie-broken-by-hour: the order in which the
ranked slot list is claimed to be produced (ascending score, ties by hour
index ascending). -/
def lex_lt (a b : Fin 24 × ℚ) : Prop := a.2 < b.2 ∨ (a.2 = b.2 ∧ a.1 < b.1)

/-- `sorted_slots = sorted(after, key=lambda o: o[1])`: Python's `sorted` is
a stable sort by the score component, which `List.insertionSort` with the
non-strict comparison on scores implements (a stable sort's output is
uniquely determined by the comparator and the input order). -/
def sorted_slots (s : SchedState) (dampen : Bool) : List (Fin 24 × ℚ) :=
  (slots_after s dampen).insertionSort score_le

/-- The walk over the sorted slots in `get_best_slots_v1` (the `for` loop):
takes `min(1, time_required_hrs)` from each slot, accumulates
`projected_carbon`, fails (`none`, for `success = False`) as soon as the
projection exceeds the budget, and stops after appending the slot that
brings the remaining time to `<= 0`.  When the slot list is exhausted with
time still remaining the loop simply ends, with `success` still `True`. -/
def walk (rate budget : ℚ) :
    List (Fin 24 × ℚ) → ℚ → ℚ → Option (List (Fin 24 × ℚ × ℚ))
  | [], _, _ => some []
  | (idx, intensity) :: rest, time_required, projected =>
    let time_usage := min 1 time_required
    let projected' := projected + rate * time_usage * intensity
    if budget < projected' then none
    else if time_required - 1 ≤ 0 then some [(idx, intensity, time_usage)]
    else (walk rate budget rest (time_required - 1) projected').map
      (fun l => (idx, intensity, time_usage) :: l)

/-- `CloudScheduler.get_best_slots_v1`: sorts the (possibly dampened)
scores, then walks them accumulating `projected_carbon` starting from the
embodied carbon; returns `best_slots if success else []`.  The outer
`Option` is `none` exactly when `energy_per_hr` or `embodied_carbon`
raises. -/
def get_best_slots_v1 (s : SchedState) (job : Job) (dampen : Bool) :
    Option (List (Fin 24 × ℚ × ℚ)) :=
  match energy_per_hr job, embodied_carbon job with
  | some rate, some emb =>
    some (match walk rate job.carbon_budget (sorted_slots s dampen) job.time emb with
          | some l => l
          | none => [])
  | _, _ => none

/-- `CloudScheduler.get_best_slots`: string dispatch.  The `"max_under"`
branch calls `get_best_slots_max_under`, whose body is `pass` (it returns
Python `None`), and an unknown method falls off the end of the function,
also returning `None`; both are `none` here. -/
def get_best_slots (s : SchedState) (job : Job) : String → Option (List (Fin 24 × ℚ × ℚ))
  | "simple" => get_best_slots_v1 s job false
  | "min_alloc" => get_best_slots_v1 s job true
  | _ => none

/-- The commit loop of `submit_job`: for each planned slot, add
`energy_per_hr * time_usage` to the slot's energy, append the
`(job id, time_usage)` entry, and accumulate
`operCarbon += intensity * energy_per_hr * time_usage`. -/
def commit_step (eph : ℚ) (jobId : ℕ) (acc : SchedState × ℚ)
    (t : Fin 24 × ℚ × ℚ) : SchedState × ℚ :=
  let old := acc.1.current_allocation t.1
  let slot : HourlyAllocation :=
    { energy := old.energy + eph * t.2.2, jobs := old.jobs ++ [(jobId, t.2.2)] }
  let alloc := Function.update acc.1.current_allocation t.1 slot
  ({ acc.1 with current_allocation := alloc }, acc.2 + t.2.1 * eph * t.2.2)

/-- The body of `CloudScheduler.submit_job`, parameterized by the method
string it passes to `get_best_slots` (the source hard-codes `"simple"`;
`submit_job_dampened` below instantiates the same body at `"min_alloc"`,
the dampened-strategy dispatch).  Returns `some (none, s)` for the
`return None` failure path (state untouched) and `some (some total, s')`
for success; the outer `none` models an uncaught Python exception
(`KeyError` / `ZeroDivisionError` / `TypeError` on an unknown method). -/
def submit_with_method (s : SchedState) (job : Job) (method : String) :
    Option (Option ℚ × SchedState) :=
  match embodied_carbon job with
  | none => none
  | some embCarbon =>
    match get_best_slots s job method with
    | none => none
    | some slots =>
      if slots.length = 0 then some (none, s)
      else
        match energy_per_hr job with
        | none => none
        | some eph =>
          let res := slots.foldl (commit_step eph job.id) (s, 0)
          some (some (embCarbon + res.2),
            { res.1 with job_carbon := res.1.job_carbon ++ [embCarbon + res.2] })

/-- The method string `"simple"`. -/
def simple_method : String := "simple"

/-- The method string `"min_alloc"`. -/
def min_alloc_method : String := "min_alloc"

/-- `CloudScheduler.submit_job`: the source calls
`self.get_best_slots(job, "simple")`. -/
def submit_job (s : SchedState) (job : Job) : Option (Option ℚ × SchedState) :=
  submit_with_method s job simple_method

/-- The same submission body dispatched at `"min_alloc"`, i.e. with
`get_best_slots_v1(job, dampen=True)`: the dampened-strategy submission
path of the engine. -/
def submit_job_dampened (s : SchedState) (job : Job) : Option (Option ℚ × SchedState) :=
  submit_with_method s job min_alloc_method

/-- Sum of the fractional hours of a plan (its `time_usage` components). -/
def frac_sum (plan : List (Fin 24 × ℚ × ℚ)) : ℚ :=
  (plan.map fun t => t.2.2).sum

/-- Operational carbon of a plan at a given energy rate:
the sum of `intensity * rate * time_usage` over its entries. -/
def oper_sum (rate : ℚ) (plan : List (Fin 24 × ℚ × ℚ)) : ℚ :=
  (plan.map fun t => t.2.1 * rate * t.2.2).sum

/-! Concrete instances used to witness the theorems below. -/

/-- A freshly initialized scheduler over a flat 400 kgCO2/MWh forecast. -/
def state0 : SchedState :=
  { intensity_data := fun _ => 400,
    current_allocation := fun _ => { energy := 0, jobs := [] },
    job_carbon := [] }

/-- A 1.5-hour job in the shape of `SAMPLE_JOB`, with a comfortable budget. -/
def jobOk : Job :=
  { id := 1, server_utilization := 0.32, time := 1.5,
    hardware := "amd_epyc_7571", carbon_budget := 10 }

/-- A job whose 30-hour duration exceeds the 24 available hourly slots,
with an ample carbon budget. -/
def jobOver : Job :=
  { id := 2, server_utilization := 0.32, time := 30,
    hardware := "amd_epyc_7571", carbon_budget := 1000000000 }

/-- A job whose zero carbon budget makes any allocation infeasible. -/
def jobPoor : Job :=
  { id := 3, server_utilization := 0.32, time := 1.5,
    hardware := "amd_epyc_7571", carbon_budget := 0 }

/-- A job with a negative duration (malformed per the spec's Job model). -/
def jobNegDur : Job :=
  { id := 4, server_utilization := 0.32, time := -2,
    hardware := "amd_epyc_7571", carbon_budget := 10 }

/-- A job with a zero duration. -/
def jobZeroDur : Job :=
  { id := 5, server_utilization := 0.32, time := 0,
    hardware := "amd_epyc_7571", carbon_budget := 10 }

/-- A job whose utilization 2 lies outside the spec's (0, 1] range. -/
def jobBadUtil : Job :=
  { id := 6, server_utilization := 2, time := 1,
    hardware := "amd_epyc_7571", carbon_budget := 10 }

/-- A job naming hardware absent from the catalog. -/
def jobUnknownHw : Job :=
  { id := 7, server_utilization := 0.32, time := 1,
    hardware := "quantum_annealer", carbon_budget := 10 }

/-- A forecast with a single clearly cheapest hour (hour 0). -/
def stateC : SchedState :=
  { intensity_data := fun i => if i = (0 : Fin 24) then 100 else 1000,
    current_allocation := fun _ => { energy := 0, jobs := [] },
    job_carbon := [] }

/-- The job submitted twice in the dampened-strategy scenario. -/
def jobC : Job :=
  { id := 8, server_utilization := 0.5, time := 1,
    hardware := "amd_epyc_7571", carbon_budget := 1000000 }

/-! Helper lemmas shared by the claim theorems. -/

lemma get_best_slots_simple (s : SchedState) (job : Job) :
    get_best_slots s job simple_method = get_best_slots_v1 s job false := rfl

lemma get_best_slots_min_alloc (s : SchedState) (job : Job) :
    get_best_slots s job min_alloc_method = get_best_slots_v1 s job true := rfl

lemma oper_sum_nil (rate : ℚ) : oper_sum rate [] = 0 := rfl

lemma oper_sum_cons (rate : ℚ) (t : Fin 24 × ℚ × ℚ) (l : List (Fin 24 × ℚ × ℚ)) :
    oper_sum rate (t :: l) = t.2.1 * rate * t.2.2 + oper_sum rate l := by
  simp [oper_sum]

/-- The catalog holds exactly the two named profiles. -/
lemma hardware_specs_cases {name : String} {hw : HardwareSpec}
    (h : hardware_specs name = some hw) : hw = xeon_spec ∨ hw = amd_spec := by
  unfold hardware_specs at h
  split at h
  · exact Or.inl (Option.some.inj h).symm
  · exact Or.inr (Option.some.inj h).symm
  · exact absurd h (by simp)

/-! ### Claim C6 -/

/-- Claim C6: for every job whose hardware profile resolves with TDP data,
`energy_consumed` equals
`utilization * duration * cores * TDP * tdp_coefficient * 1e-6` (MWh),
scales linearly in duration and in utilization, and `embodied_carbon`
equals `(duration / lifetime) * embodied_carbon` (kgCO2). -/
theorem cost_model_formulas (job : Job) (hw : HardwareSpec) (t c : ℚ)
    (hhw : hardware_specs job.hardware = some hw)
    (ht : hw.tdp = some t) (hc : hw.tdp_coefficient = some c) :
    energy_consumed job =
      some (job.server_utilization * job.time * hw.cores * t * c * (1 / 1000000)) ∧
    embodied_carbon job = some (job.time / hw.lifetime * hw.embodied_carbon) ∧
    (∀ k : ℚ, energy_consumed { job with time := k * job.time } =
      some (k * (job.server_utilization * job.time * hw.cores * t * c * (1 / 1000000)))) ∧
    (∀ k : ℚ, energy_consumed { job with server_utilization := k * job.server_utilization } =
      some (k * (job.server_utilization * job.time * hw.cores * t * c * (1 / 1000000)))) := by
  refine ⟨?_, ?_, ?_, ?_⟩
  · simp only [energy_consumed, hhw, ht, hc, Option.bind_some, Option.some_bind, bind, pure]
    congr 1
    ring
  · simp [embodied_carbon, hhw]
  · intro k
    simp only [energy_consumed, hhw, ht, hc, Option.bind_some, Option.some_bind, bind, pure]
    congr 1
    ring
  · intro k
    simp only [energy_consumed, hhw, ht, hc, Option.bind_some, Option.some_bind, bind, pure]
    congr 1
    ring

/-- Witness for C6 at the sample 1.5-hour AMD job. -/
theorem cost_model_formulas_witness :
    energy_consumed jobOk =
      some (jobOk.server_utilization * jobOk.time * amd_spec.cores * 120 * 0.3 * (1 / 1000000)) ∧
    embodied_carbon jobOk = some (jobOk.time / amd_spec.lifetime * amd_spec.embodied_carbon) :=
  ⟨(cost_model_formulas jobOk amd_spec 120 0.3 rfl rfl rfl).1,
   (cost_model_formulas jobOk amd_spec 120 0.3 rfl rfl rfl).2.1⟩

/-! ### Claim C10 -/

/-- Claim C10: for a job with strictly positive duration, `energy_per_hr`
equals `utilization * cores * TDP * tdp_coefficient / 1e6`, independently
of the duration: the duration cancels between `energy_consumed` and the
division by the duration. -/
theorem energy_per_hr_independent_of_duration (job : Job) (hw : HardwareSpec) (t c : ℚ)
    (hhw : hardware_specs job.hardware = some hw)
    (ht : hw.tdp = some t) (hc : hw.tdp_coefficient = some c)
    (hpos : 0 < job.time) :
    energy_per_hr job = some (job.server_utilization * hw.cores * t * c / 1000000) ∧
    ∀ d : ℚ, 0 < d → energy_per_hr { job with time := d } = energy_per_hr job := by
  have key : ∀ d : ℚ, 0 < d → energy_per_hr { job with time := d } =
      some (job.server_utilization * hw.cores * t * c / 1000000) := by
    intro d hd
    have hd' : d ≠ 0 := ne_of_gt hd
    simp only [energy_per_hr, energy_consumed, hhw, ht, hc, Option.bind_some,
      Option.some_bind, bind, pure, hd', if_false, ite_false, if_neg hd']
    congr 1
    field_simp
    ring
  have h0 : energy_per_hr job = some (job.server_utilization * hw.cores * t * c / 1000000) :=
    key job.time hpos
  exact ⟨h0, fun d hd => (key d hd).trans h0.symm⟩

unseal Nat.gcd Rat.mul Rat.add Rat.inv Rat.ofScientific Rat.sub in
/-- Witness for C10: the sample job's rate, and invariance at duration 7. -/
theorem energy_per_hr_independent_witness :
    energy_per_hr jobOk =
      some (jobOk.server_utilization * amd_spec.cores * 120 * 0.3 / 1000000) ∧
    energy_per_hr { jobOk with time := 7 } = energy_per_hr jobOk :=
  ⟨(energy_per_hr_independent_of_duration jobOk amd_spec 120 0.3 rfl rfl rfl (by decide)).1,
   (energy_per_hr_independent_of_duration jobOk amd_spec 120 0.3 rfl rfl rfl (by decide)).2
     7 (by decide)⟩

/-! ### Claim C5 -/

unseal Nat.gcd Rat.mul Rat.add Rat.inv Rat.ofScientific Rat.sub in
/-- Counterexample to C5: a job with negative duration is not rejected —
`energy_per_hr` returns a value rather than failing for duration ≤ 0 — and
a job whose utilization 2 lies outside (0, 1] is allocated successfully by
`submit_job` with no precondition error. -/
theorem no_precondition_validation :
    jobNegDur.time < 0 ∧ (energy_per_hr jobNegDur).isSome = true ∧
    1 < jobBadUtil.server_utilization ∧
    ∃ total s', submit_job state0 jobBadUtil = some (some total, s') := by
  refine ⟨by decide, by decide, by decide, ?_⟩
  exact ⟨_, _, rfl⟩

/-- Claim C5 as amended: the engine performs no precondition validation.
`energy_per_hr` fails only at duration exactly 0 (Python's
`ZeroDivisionError`), not for all durations ≤ 0; an unknown hardware name
surfaces as a `KeyError` from the catalog lookup inside `submit_job`
(modelled as `none`), not as a distinct precondition check; utilization and
budget are never inspected before scoring. -/
theorem precondition_handling_amended (job : Job) (hw : HardwareSpec)
    (hknown : hardware_specs job.hardware = some hw)
    (ht : hw.tdp.isSome = true) (hc : hw.tdp_coefficient.isSome = true) :
    (energy_per_hr job = none ↔ job.time = 0) ∧
    (∀ (s : SchedState) (j : Job), hardware_specs j.hardware = none → submit_job s j = none) := by
  constructor
  · obtain ⟨t, ht'⟩ := Option.isSome_iff_exists.mp ht
    obtain ⟨c, hc'⟩ := Option.isSome_iff_exists.mp hc
    by_cases h0 : job.time = 0 <;>
      simp [energy_per_hr, energy_consumed, hknown, ht', hc', h0, bind, pure]
  · intro s j hj
    have hemb : embodied_carbon j = none := by simp [embodied_carbon, hj]
    simp [submit_job, submit_with_method, hemb]

/-- Witness for the amended C5: `energy_per_hr` fails at the zero-duration
job, and the unknown-hardware job makes `submit_job` raise. -/
theorem precondition_handling_amended_witness :
    energy_per_hr jobZeroDur = none ∧ submit_job state0 jobUnknownHw = none :=
  ⟨(precondition_handling_amended jobZeroDur amd_spec rfl rfl rfl).1.mpr rfl,
   (precondition_handling_amended jobZeroDur amd_spec rfl rfl rfl).2 state0 jobUnknownHw rfl⟩

/-! ### Claim C2 -/

/-- Claim C2: whenever `submit_job` reports failure (`return None`), the
state — every slot's energy, every slot's job list, and the per-job carbon
log — is exactly the state before the call: no partial commit occurs. -/
theorem submit_failure_leaves_state (s : SchedState) (job : Job) (s' : SchedState)
    (h : submit_job s job = some (none, s')) : s' = s := by
  unfold submit_job submit_with_method at h
  cases he : embodied_carbon job with
  | none => rw [he] at h; simp at h
  | some emb =>
    rw [he, get_best_slots_simple] at h
    cases hg : get_best_slots_v1 s job false with
    | none => rw [hg] at h; simp at h
    | some slots =>
      rw [hg] at h
      dsimp only at h
      by_cases hlen : slots.length = 0
      · rw [if_pos hlen] at h
        simp only [Option.some.injEq, Prod.mk.injEq] at h
        exact h.2.symm
      · rw [if_neg hlen] at h
        cases hr : energy_per_hr job with
        | none => rw [hr] at h; simp at h
        | some eph => rw [hr] at h; simp at h

unseal Nat.gcd Rat.mul Rat.add Rat.inv Rat.ofScientific Rat.sub in
/-- Witness for C2: the zero-budget job fails and the state is unchanged. -/
theorem submit_failure_leaves_state_witness :
    submit_job state0 jobPoor = some (none, state0) ∧ state0 = state0 :=
  have h : submit_job state0 jobPoor = some (none, state0) := by decide
  ⟨h, submit_failure_leaves_state state0 jobPoor state0 h⟩

/-! Helper lemmas about the walk and the commit fold. -/

/-- Every appended slot of the walk was accepted by the budget check:
the projection it reached — start plus the plan's operational carbon —
is at most the budget (for a nonempty result). -/
lemma walk_le_budget {rate budget : ℚ} (slots : List (Fin 24 × ℚ)) :
    ∀ (t proj : ℚ) (l : List (Fin 24 × ℚ × ℚ)),
      walk rate budget slots t proj = some l → l ≠ [] →
      proj + oper_sum rate l ≤ budget := by
  induction slots with
  | nil =>
    intro t proj l h hne
    simp only [walk, Option.some.injEq] at h
    exact absurd h.symm hne
  | cons p rest ih =>
    obtain ⟨idx, inten⟩ := p
    intro t proj l h hne
    simp only [walk] at h
    split at h
    · exact absurd h (by simp)
    next hb =>
      rw [not_lt] at hb
      split at h
      next hstop =>
        obtain rfl : [(idx, inten, min 1 t)] = l := Option.some.inj h
        have he : proj + oper_sum rate [(idx, inten, min 1 t)] =
            proj + rate * min 1 t * inten := by
          simp [oper_sum]; ring
        rw [he]; exact hb
      next hstop =>
        cases hw : walk rate budget rest (t - 1) (proj + rate * min 1 t * inten) with
        | none => rw [hw] at h; simp at h
        | some l' =>
          rw [hw] at h
          simp only [Option.map_some', Option.some.injEq] at h
          subst h
          rcases eq_or_ne l' [] with rfl | hne'
          · have he : proj + oper_sum rate [(idx, inten, min 1 t)] =
                proj + rate * min 1 t * inten := by
              simp [oper_sum]; ring
            rw [he]; exact hb
          · have ihb := ih (t - 1) (proj + rate * min 1 t * inten) l' hw hne'
            calc proj + oper_sum rate ((idx, inten, min 1 t) :: l')
                = proj + rate * min 1 t * inten + oper_sum rate l' := by
                  rw [oper_sum_cons]; ring
              _ ≤ budget := ihb

/-- Every fraction taken by the walk from a positive required time is in
(0, 1]. -/
lemma walk_usage_bounds {rate budget : ℚ} (slots : List (Fin 24 × ℚ)) :
    ∀ (t proj : ℚ) (l : List (Fin 24 × ℚ × ℚ)),
      walk rate budget slots t proj = some l → 0 < t →
      ∀ x ∈ l, 0 < x.2.2 ∧ x.2.2 ≤ 1 := by
  induction slots with
  | nil =>
    intro t proj l h _ x hx
    simp only [walk, Option.some.injEq] at h
    subst h; simp at hx
  | cons p rest ih =>
    obtain ⟨idx, inten⟩ := p
    intro t proj l h ht x hx
    simp only [walk] at h
    split at h
    · exact absurd h (by simp)
    next hb =>
      split at h
      next hstop =>
        obtain rfl : [(idx, inten, min 1 t)] = l := Option.some.inj h
        simp only [List.mem_singleton] at hx
        subst hx
        exact ⟨lt_min one_pos ht, min_le_left 1 t⟩
      next hstop =>
        cases hw : walk rate budget rest (t - 1) (proj + rate * min 1 t * inten) with
        | none => rw [hw] at h; simp at h
        | some l' =>
          rw [hw] at h
          simp only [Option.map_some', Option.some.injEq] at h
          subst h
          rcases List.mem_cons.mp hx with rfl | hx'
          · exact ⟨lt_min one_pos ht, min_le_left 1 t⟩
          · have ht' : 0 < t - 1 := by
              rw [not_le] at hstop; exact hstop
            exact ih (t - 1) (proj + rate * min 1 t * inten) l' hw ht' x hx'

/-- Every entry of a walk result is one of the walked slots, extended by
its fraction. -/
lemma walk_mem_slots {rate budget : ℚ} (slots : List (Fin 24 × ℚ)) :
    ∀ (t proj : ℚ) (l : List (Fin 24 × ℚ × ℚ)),
      walk rate budget slots t proj = some l →
      ∀ x ∈ l, (x.1, x.2.1) ∈ slots := by
  induction slots with
  | nil =>
    intro t proj l h x hx
    simp only [walk, Option.some.injEq] at h
    subst h; simp at hx
  | cons p rest ih =>
    obtain ⟨idx, inten⟩ := p
    intro t proj l h x hx
    simp only [walk] at h
    split at h
    · exact absurd h (by simp)
    next hb =>
      split at h
      next hstop =>
        obtain rfl : [(idx, inten, min 1 t)] = l := Option.some.inj h
        simp only [List.mem_singleton] at hx
        subst hx
        exact List.mem_cons_self _ _
      next hstop =>
        cases hw : walk rate budget rest (t - 1) (proj + rate * min 1 t * inten) with
        | none => rw [hw] at h; simp at h
        | some l' =>
          rw [hw] at h
          simp only [Option.map_some', Option.some.injEq] at h
          subst h
          rcases List.mem_cons.mp hx with rfl | hx'
          · exact List.mem_cons_self _ _
          · exact List.mem_cons_of_mem _
              (ih (t - 1) (proj + rate * min 1 t * inten) l' hw x hx')

/-- The operational-carbon accumulator of the commit fold. -/
lemma foldl_commit_snd (eph : ℚ) (jid : ℕ) (slots : List (Fin 24 × ℚ × ℚ)) :
    ∀ (s : SchedState) (c : ℚ),
      (slots.foldl (commit_step eph jid) (s, c)).2 = c + oper_sum eph slots := by
  induction slots with
  | nil => intro s c; simp [oper_sum]
  | cons x rest ih =>
    intro s c
    rw [List.foldl_cons]
    simp only [commit_step]
    rw [ih, oper_sum_cons]
    ring

/-- The commit fold only adds to each slot: energies never decrease (with
non-negative per-slot additions), job entries are only appended, and the
intensity forecast is untouched. -/
lemma foldl_commit_state (eph : ℚ) (jid : ℕ) (slots : List (Fin 24 × ℚ × ℚ)) :
    ∀ (s : SchedState) (c : ℚ) (idx : Fin 24),
      (∀ x ∈ slots, 0 ≤ eph * x.2.2) →
      (s.current_allocation idx).energy ≤
        ((slots.foldl (commit_step eph jid) (s, c)).1.current_allocation idx).energy ∧
      (∃ tail, ((slots.foldl (commit_step eph jid) (s, c)).1.current_allocation idx).jobs =
        (s.current_allocation idx).jobs ++ tail) ∧
      (slots.foldl (commit_step eph jid) (s, c)).1.intensity_data = s.intensity_data := by
  induction slots with
  | nil => intro s c idx _; exact ⟨le_refl _, ⟨[], by simp⟩, rfl⟩
  | cons x rest ih =>
    intro s c idx hpos
    rw [List.foldl_cons]
    have hx0 : 0 ≤ eph * x.2.2 := hpos x (List.mem_cons_self _ _)
    obtain ⟨ihe, ⟨tail, ihj⟩, ihi⟩ :=
      ih (commit_step eph jid (s, c) x).1 (commit_step eph jid (s, c) x).2 idx
        (fun y hy => hpos y (List.mem_cons_of_mem _ hy))
    refine ⟨le_trans ?_ ihe, ?_, ?_⟩
    · simp only [commit_step, Function.update_apply]
      split
      next heq =>
        subst heq
        simp
        linarith [hx0]
      next => exact le_refl _
    · refine ⟨?_, ?_⟩
      · exact (if idx = x.1 then [(jid, x.2.2)] else []) ++ tail
      · rw [ihj]
        simp only [commit_step, Function.update_apply]
        split
        next heq => subst heq; simp
        next => simp
    · rw [ihi]; rfl

/-- Decomposition of a successful `submit_with_method` call whose method
dispatches to `get_best_slots_v1` with a given dampening flag. -/
lemma submit_success_decompose (s : SchedState) (job : Job) (total : ℚ) (s' : SchedState)
    (method : String) (dampen : Bool)
    (hm : get_best_slots s job method = get_best_slots_v1 s job dampen)
    (h : submit_with_method s job method = some (some total, s')) :
    ∃ emb rate plan,
      embodied_carbon job = some emb ∧ energy_per_hr job = some rate ∧
      walk rate job.carbon_budget (sorted_slots s dampen) job.time emb = some plan ∧
      plan ≠ [] ∧ get_best_slots_v1 s job dampen = some plan ∧
      total = emb + (plan.foldl (commit_step rate job.id) (s, 0)).2 ∧
      s' = { (plan.foldl (commit_step rate job.id) (s, 0)).1 with
             job_carbon :=
               (plan.foldl (commit_step rate job.id) (s, 0)).1.job_carbon ++ [total] } := by
  unfold submit_with_method at h
  cases he : embodied_carbon job with
  | none => rw [he] at h; simp at h
  | some emb =>
    rw [he, hm] at h
    cases hr : energy_per_hr job with
    | none =>
      rw [show get_best_slots_v1 s job dampen = none from by
        simp [get_best_slots_v1, hr]] at h
      simp at h
    | some rate =>
      cases hw : walk rate job.carbon_budget (sorted_slots s dampen) job.time emb with
      | none =>
        have hplan : get_best_slots_v1 s job dampen = some [] := by
          simp [get_best_slots_v1, hr, he, hw]
        rw [hplan] at h; simp at h
      | some plan =>
        have hplan : get_best_slots_v1 s job dampen = some plan := by
          simp [get_best_slots_v1, hr, he, hw]
        rw [hplan] at h
        dsimp only at h
        by_cases hlen : plan.length = 0
        · rw [if_pos hlen] at h; simp at h
        · rw [if_neg hlen, hr] at h
          dsimp only at h
          simp only [Option.some.injEq, Prod.mk.injEq] at h
          obtain ⟨h1, h2⟩ := h
          have hne : plan ≠ [] := fun hnil => hlen (by simp [hnil])
          refine ⟨emb, rate, plan, rfl, rfl, hw, hne, hplan, h1.symm, ?_⟩
          rw [← h2]
          cases hfold : (plan.foldl (commit_step rate job.id) (s, 0)).1
          simp [← h1]

/-! ### Claim C3 -/

/-- Claim C3: every successful submission's returned total carbon is at
most the job's budget, and equals the embodied carbon plus the sum of
`rate * fraction * score` over the committed plan. -/
theorem submit_job_budget_bound (s : SchedState) (job : Job) (total : ℚ) (s' : SchedState)
    (h : submit_job s job = some (some total, s')) :
    total ≤ job.carbon_budget ∧
    ∃ emb rate plan,
      embodied_carbon job = some emb ∧ energy_per_hr job = some rate ∧
      get_best_slots_v1 s job false = some plan ∧ plan ≠ [] ∧
      total = emb + oper_sum rate plan := by
  obtain ⟨emb, rate, plan, he, hr, hw, hne, hplan, htot, hs'⟩ :=
    submit_success_decompose s job total s' simple_method false
      (get_best_slots_simple s job) h
  have hsum : (plan.foldl (commit_step rate job.id) (s, 0)).2 = 0 + oper_sum rate plan :=
    foldl_commit_snd rate job.id plan s 0
  have htot' : total = emb + oper_sum rate plan := by rw [htot, hsum]; ring
  refine ⟨?_, emb, rate, plan, he, hr, hplan, hne, htot'⟩
  have hb := walk_le_budget (sorted_slots s false) job.time emb plan hw hne
  rw [htot']
  linarith [hb]

unseal Nat.gcd Rat.mul Rat.add Rat.inv Rat.ofScientific Rat.sub in
/-- Witness for C3 at the sample job: a successful submission whose cost
is within its budget. -/
theorem submit_job_budget_bound_witness :
    ∃ total s', submit_job state0 jobOk = some (some total, s') ∧
      total ≤ jobOk.carbon_budget := by
  refine ⟨_, _, rfl, ?_⟩
  exact (submit_job_budget_bound state0 jobOk _ _ rfl).1

/-! ### Claim C1 -/

unseal Nat.gcd Rat.mul Rat.add Rat.inv Rat.ofScientific Rat.sub in
/-- Claim C1 is violated by the code (the spec flags this as the intended
fail-closed behavior): a job requiring 30 hours against the 24-slot cycle
is NOT rejected — `submit_job` returns a carbon total as a success and
mutates the allocation state, silently committing a partial (24-hour)
plan. -/
theorem capacity_exhaustion_not_failed :
    jobOver.time = 30 ∧
    ∃ total s', submit_job state0 jobOver = some (some total, s') ∧ s' ≠ state0 := by
  refine ⟨by decide, ?_⟩
  refine ⟨_, _, rfl, ?_⟩
  decide

/-! ### Claim C4 -/

unseal Nat.gcd Rat.mul Rat.add Rat.inv Rat.ofScientific Rat.sub in
/-- Claim C4 is violated by the code (same root cause as C1): for the
30-hour job the submission succeeds, yet the committed plan's fractions
sum to 24, not to the requested duration 30. -/
theorem duration_coverage_violated :
    ∃ plan, get_best_slots_v1 state0 jobOver false = some plan ∧ plan ≠ [] ∧
      frac_sum plan = 24 ∧ jobOver.time = 30 ∧
      ∃ total s', submit_job state0 jobOver = some (some total, s') := by
  refine ⟨_, rfl, by decide, by decide, by decide, ?_⟩
  exact ⟨_, _, rfl⟩

/-! ### Claim C9 -/

/-- The energy rate of a job with positive duration and non-negative
utilization is non-negative (both catalog profiles have positive
constants; only the AMD profile can produce a rate at all). -/
lemma energy_per_hr_nonneg (job : Job) (rate : ℚ)
    (hr : energy_per_hr job = some rate)
    (htime : 0 < job.time) (hutil : 0 ≤ job.server_utilization) : 0 ≤ rate := by
  unfold energy_per_hr energy_consumed at hr
  cases hhw : hardware_specs job.hardware with
  | none => rw [hhw] at hr; simp at hr
  | some hw =>
    rw [hhw] at hr
    rcases hardware_specs_cases hhw with rfl | rfl
    · simp [xeon_spec] at hr
    · simp only [amd_spec, Option.some_bind, bind, pure] at hr
      rw [if_neg (ne_of_gt htime)] at hr
      obtain rfl := Option.some.inj hr
      have h1 : 0 ≤ job.server_utilization * job.time := mul_nonneg hutil htime.le
      have h2 : (0 : ℚ) ≤
          job.server_utilization * job.time *
            HardwareSpec.cores
              { cores := 32, embodied_carbon := 1610.40, lifetime := 8760 * 4.5,
                tdp := some 120, tdp_coefficient := some 0.3 } * 120 * 0.3 / 1000000 := by
        apply div_nonneg _ (by norm_num)
        have hc : (0 : ℚ) ≤ HardwareSpec.cores
            { cores := 32, embodied_carbon := 1610.40, lifetime := 8760 * 4.5,
              tdp := some 120, tdp_coefficient := some 0.3 } := by norm_num
        exact mul_nonneg (mul_nonneg (mul_nonneg h1 hc) (by norm_num)) (by norm_num)
      exact div_nonneg h2 htime.le

/-- Claim C9: across a successful submission of a well-formed job
(positive duration, non-negative utilization), every slot's committed
energy is monotonically non-decreasing (hence stays non-negative), and
the slot's job-entry list is only appended to, never shortened. -/
theorem submit_success_state_monotone (s : SchedState) (job : Job) (total : ℚ) (s' : SchedState)
    (h : submit_job s job = some (some total, s'))
    (htime : 0 < job.time) (hutil : 0 ≤ job.server_utilization) :
    ∀ idx : Fin 24,
      (s.current_allocation idx).energy ≤ (s'.current_allocation idx).energy ∧
      (0 ≤ (s.current_allocation idx).energy → 0 ≤ (s'.current_allocation idx).energy) ∧
      ∃ tail, (s'.current_allocation idx).jobs = (s.current_allocation idx).jobs ++ tail := by
  obtain ⟨emb, rate, plan, he, hr, hw, hne, hplan, htot, hs'⟩ :=
    submit_success_decompose s job total s' simple_method false
      (get_best_slots_simple s job) h
  have hr0 : 0 ≤ rate := energy_per_hr_nonneg job rate hr htime hutil
  have husage : ∀ x ∈ plan, 0 ≤ rate * x.2.2 := fun x hx =>
    mul_nonneg hr0 (walk_usage_bounds (sorted_slots s false) job.time emb plan hw htime x hx).1.le
  intro idx
  obtain ⟨hene, ⟨tail, hjobs⟩, _⟩ := foldl_commit_state rate job.id plan s 0 idx husage
  subst hs'
  exact ⟨hene, fun h0 => le_trans h0 hene, ⟨tail, hjobs⟩⟩

unseal Nat.gcd Rat.mul Rat.add Rat.inv Rat.ofScientific Rat.sub in
/-- Witness for C9 at the sample job, read off at hour 0. -/
theorem submit_success_state_monotone_witness :
    ∃ total s', submit_job state0 jobOk = some (some total, s') ∧
      ((state0.current_allocation 0).energy ≤ (s'.current_allocation 0).energy ∧
       (0 ≤ (state0.current_allocation 0).energy → 0 ≤ (s'.current_allocation 0).energy) ∧
       ∃ tail, (s'.current_allocation 0).jobs = (state0.current_allocation 0).jobs ++ tail) := by
  refine ⟨_, _, rfl, ?_⟩
  exact submit_success_state_monotone state0 jobOk _ _ rfl (by decide) (by decide) 0

/-! ### Claim C7 -/

/-- Inserting an element whose hour index is below every tied element
preserves the lexicographic (score, then hour) strict ordering. -/
lemma orderedInsert_lex (x : Fin 24 × ℚ) :
    ∀ (l : List (Fin 24 × ℚ)), l.Sorted score_le → l.Pairwise lex_lt →
      (∀ y ∈ l, x.2 = y.2 → x.1 < y.1) →
      (l.orderedInsert score_le x).Pairwise lex_lt := by
  intro l
  induction l with
  | nil => intro _ _ _; simp
  | cons b t ih =>
    intro hsort hlex hx
    by_cases hxb : score_le x b
    · rw [List.orderedInsert_of_le score_le t hxb]
      refine List.pairwise_cons.mpr ⟨?_, hlex⟩
      intro z hz
      have hxz : x.2 ≤ z.2 := by
        rcases List.mem_cons.mp hz with rfl | hz'
        · exact hxb
        · exact le_trans hxb (List.rel_of_sorted_cons hsort z hz')
      rcases lt_or_eq_of_le hxz with hlt | heq
      · exact Or.inl hlt
      · exact Or.inr ⟨heq, hx z hz heq⟩
    · have heq : (b :: t).orderedInsert score_le x = b :: t.orderedInsert score_le x := by
        simp [List.orderedInsert, hxb]
      rw [heq]
      obtain ⟨hb, ht⟩ := List.pairwise_cons.mp hlex
      refine List.pairwise_cons.mpr
        ⟨?_, ih hsort.of_cons ht (fun y hy hxy => hx y (List.mem_cons_of_mem _ hy) hxy)⟩
      intro z hz
      rcases (List.mem_orderedInsert score_le).mp hz with rfl | hz'
      · exact Or.inl (not_le.mp hxb)
      · exact hb z hz'

/-- The stable sort of a list with strictly increasing hour indices is
strictly ordered by score with ties broken by hour index ascending. -/
lemma insertionSort_lex :
    ∀ (l : List (Fin 24 × ℚ)), l.Pairwise (fun a b => a.1 < b.1) →
      (l.insertionSort score_le).Pairwise lex_lt := by
  intro l
  induction l with
  | nil => intro _; simp
  | cons x t ih =>
    intro hp
    obtain ⟨hx, ht⟩ := List.pairwise_cons.mp hp
    simp only [List.insertionSort]
    apply orderedInsert_lex
    · exact List.sorted_insertionSort score_le t
    · exact ih ht
    · intro y hy _
      exact hx y ((List.mem_insertionSort score_le).mp hy)

/-- The `after` list is built in strictly increasing hour order. -/
lemma slots_after_pairwise_fst (s : SchedState) (d : Bool) :
    (slots_after s d).Pairwise (fun a b => a.1 < b.1) := by
  unfold slots_after
  rw [List.pairwise_map]
  exact List.pairwise_lt_finRange 24

/-- Claim C7: the dampened score is the raw intensity plus
`K * committed_energy / raw intensity` with `K = 3.5e6` (a constant in the
10^6 magnitude range), the plain score is the raw intensity, and the
ranked slot list is ascending by score with ties broken by hour index
ascending. -/
theorem scoring_and_ranking (s : SchedState) (dampen : Bool) (idx : Fin 24) :
    get_adjusted_intensity s idx =
      get_intensity s idx +
        congestion_K * (s.current_allocation idx).energy / get_intensity s idx ∧
    congestion_K = 3500000 ∧
    (1000000 : ℚ) ≤ congestion_K ∧ congestion_K < 10000000 ∧
    slot_score s false idx = get_intensity s idx ∧
    get_intensity s idx = s.intensity_data idx ∧
    slot_score s true idx = get_adjusted_intensity s idx ∧
    (sorted_slots s dampen).Pairwise lex_lt := by
  refine ⟨rfl, by norm_num [congestion_K], by norm_num [congestion_K],
    by norm_num [congestion_K], rfl, rfl, rfl, ?_⟩
  exact insertionSort_lex (slots_after s dampen) (slots_after_pairwise_fst s dampen)

/-! ### Claim C8 -/

set_option maxHeartbeats 2000000 in
unseal Nat.gcd Rat.mul Rat.add Rat.inv Rat.ofScientific Rat.sub in
/-- Counterexample to C8's first part: over a forecast with hour 0 at
intensity 100 and all other hours at 1000, submitting the same job twice
under the dampened strategy selects hour 0 as the cheapest slot both
times, even though hour 0's committed energy is nonzero after the first
submission — the congestion penalty does not outweigh the intensity gap. -/
theorem dampened_same_hour_selected_twice :
    ∃ c1 s1, submit_job_dampened stateC jobC = some (some c1, s1) ∧
      (s1.current_allocation 0).energy ≠ 0 ∧
      (∃ p1, get_best_slots_v1 stateC jobC true = some p1 ∧
        (p1.map fun t => t.1).head? = some 0) ∧
      (∃ c2 s2, submit_job_dampened s1 jobC = some (some c2, s2)) ∧
      (∃ p2, get_best_slots_v1 s1 jobC true = some p2 ∧
        (p2.map fun t => t.1).head? = some 0) := by
  refine ⟨_, _, rfl, by decide, ⟨_, rfl, by decide⟩, ⟨_, _, rfl⟩, ⟨_, rfl, by decide⟩⟩

/-- Success of `get_best_slots_v1` with a nonempty plan comes from a
successful walk over the sorted slots. -/
lemma v1_success_walk (s : SchedState) (job : Job) (dampen : Bool)
    (p : List (Fin 24 × ℚ × ℚ))
    (hp : get_best_slots_v1 s job dampen = some p) (hne : p ≠ []) :
    ∃ rate emb, energy_per_hr job = some rate ∧ embodied_carbon job = some emb ∧
      walk rate job.carbon_budget (sorted_slots s dampen) job.time emb = some p := by
  unfold get_best_slots_v1 at hp
  cases hr : energy_per_hr job with
  | none => rw [hr] at hp; simp at hp
  | some rate =>
    cases he : embodied_carbon job with
    | none => rw [hr, he] at hp; simp at hp
    | some emb =>
      rw [hr, he] at hp
      dsimp only at hp
      cases hw : walk rate job.carbon_budget (sorted_slots s dampen) job.time emb with
      | none =>
        rw [hw] at hp
        simp only [Option.some.injEq] at hp
        exact absurd hp.symm hne
      | some l =>
        rw [hw] at hp
        simp only [Option.some.injEq] at hp
        exact ⟨rate, emb, rfl, rfl, by rw [hw, hp]⟩

/-- Membership in the ranked list is membership in `after`. -/
lemma mem_sorted_slots {s : SchedState} {d : Bool} {p : Fin 24 × ℚ} :
    p ∈ sorted_slots s d ↔ p ∈ slots_after s d :=
  (List.perm_insertionSort score_le _).mem_iff

/-- Every element of `after` carries the score of its own hour. -/
lemma snd_eq_score_of_mem_after {s : SchedState} {d : Bool} {p : Fin 24 × ℚ}
    (h : p ∈ slots_after s d) : p.2 = slot_score s d p.1 := by
  unfold slots_after at h
  obtain ⟨i, _, hip⟩ := List.mem_map.mp h
  rw [← hip]

/-- Every hour's scored pair occurs in `after`. -/
lemma score_mem_after (s : SchedState) (d : Bool) (i : Fin 24) :
    (i, slot_score s d i) ∈ slots_after s d := by
  unfold slots_after
  exact List.mem_map.mpr ⟨i, List.mem_finRange i, rfl⟩

/-- The ranked list is sorted by score. -/
lemma sorted_slots_sorted (s : SchedState) (d : Bool) :
    (sorted_slots s d).Sorted score_le :=
  List.sorted_insertionSort score_le _

/-- The first planned slot of a walk is the first slot of the walked
list, with the fraction `min 1 t`. -/
lemma walk_head {rate budget : ℚ} {i : Fin 24} {v t proj : ℚ}
    {rest : List (Fin 24 × ℚ)} {l : List (Fin 24 × ℚ × ℚ)} {e : Fin 24 × ℚ × ℚ}
    (h : walk rate budget ((i, v) :: rest) t proj = some l)
    (hh : l.head? = some e) : e = (i, v, min 1 t) := by
  simp only [walk] at h
  split at h
  · simp at h
  next hb =>
    split at h
    next =>
      obtain rfl := Option.some.inj h
      simp only [List.head?_cons, Option.some.injEq] at hh
      exact hh.symm
    next =>
      cases hw : walk rate budget rest (t - 1) (proj + rate * min 1 t * v) with
      | none => rw [hw] at h; simp at h
      | some l' =>
        rw [hw] at h
        simp only [Option.map_some', Option.some.injEq] at h
        subst h
        simp only [List.head?_cons, Option.some.injEq] at hh
        exact hh.symm

/-- Dampened scores only grow when intensities are fixed and positive and
committed energies grow. -/
lemma adjusted_mono {s s' : SchedState} (hint : s'.intensity_data = s.intensity_data)
    (hpos : ∀ i : Fin 24, 0 < s.intensity_data i)
    (hene : ∀ i : Fin 24, (s.current_allocation i).energy ≤ (s'.current_allocation i).energy)
    (i : Fin 24) : get_adjusted_intensity s i ≤ get_adjusted_intensity s' i := by
  unfold get_adjusted_intensity
  rw [hint]
  have hK : (0 : ℚ) < congestion_K := by norm_num [congestion_K]
  have h2 : congestion_K * (s.current_allocation i).energy ≤
      congestion_K * (s'.current_allocation i).energy :=
    mul_le_mul_of_nonneg_left (hene i) hK.le
  exact add_le_add_left ((div_le_div_iff_of_pos_right (hpos i)).mpr h2) _

/-- Claim C8 as amended: after a successful dampened-strategy submission
of a job with positive duration and non-negative rate over a positive
forecast, the dampened score of the second identical submission's
top-ranked hour is at least the first submission's top-ranked score (the
minimum score never decreases); the first part of the claim — that the
same hour cannot be selected twice — is refuted by the counterexample. -/
theorem dampened_top_score_monotone
    (s : SchedState) (job : Job) (c1 : ℚ) (s1 : SchedState)
    (hpos : ∀ i : Fin 24, 0 < s.intensity_data i)
    (htime : 0 < job.time)
    (rate : ℚ) (hrate : energy_per_hr job = some rate) (hr0 : 0 ≤ rate)
    (h1 : submit_job_dampened s job = some (some c1, s1))
    (p1 p2 : List (Fin 24 × ℚ × ℚ))
    (hp1 : get_best_slots_v1 s job true = some p1)
    (hp2 : get_best_slots_v1 s1 job true = some p2)
    (e1 e2 : Fin 24 × ℚ × ℚ)
    (hh1 : p1.head? = some e1) (hh2 : p2.head? = some e2) :
    e1.2.1 ≤ e2.2.1 := by
  obtain ⟨emb, rate', plan, he, hr', hw1, hne1, hplan1, htot, hs1⟩ :=
    submit_success_decompose s job c1 s1 min_alloc_method true
      (get_best_slots_min_alloc s job) h1
  have hrr : rate = rate' := by
    rw [hrate] at hr'; exact Option.some.inj hr'
  subst hrr
  have hpp : p1 = plan := by
    rw [hplan1] at hp1; exact (Option.some.inj hp1).symm
  subst hpp
  have husage : ∀ x ∈ p1, 0 ≤ rate * x.2.2 := fun x hx =>
    mul_nonneg hr0 (walk_usage_bounds (sorted_slots s true) job.time emb p1 hw1 htime x hx).1.le
  have hint : s1.intensity_data = s.intensity_data := by
    rw [hs1]
    exact (foldl_commit_state rate job.id p1 s 0 0 husage).2.2
  have hene : ∀ i : Fin 24,
      (s.current_allocation i).energy ≤ (s1.current_allocation i).energy := by
    intro i
    rw [hs1]
    exact (foldl_commit_state rate job.id p1 s 0 i husage).1
  have hmono : ∀ i : Fin 24,
      get_adjusted_intensity s i ≤ get_adjusted_intensity s1 i :=
    adjusted_mono hint hpos hene
  obtain ⟨hd1, tl1, hss1⟩ : ∃ hd tl, sorted_slots s true = hd :: tl := by
    cases hcase : sorted_slots s true with
    | nil =>
      exfalso
      have hlap : (sorted_slots s true).length = 24 := by
        rw [sorted_slots, List.length_insertionSort, slots_after,
          List.length_map, List.length_finRange]
      rw [hcase] at hlap
      simp at hlap
    | cons hd tl => exact ⟨hd, tl, rfl⟩
  obtain ⟨i1, v1'⟩ := hd1
  rw [hss1] at hw1
  have he1 : e1 = (i1, v1', min 1 job.time) := walk_head hw1 hh1
  have hsorted := sorted_slots_sorted s true
  rw [hss1] at hsorted
  have hmin : ∀ y ∈ sorted_slots s true, v1' ≤ y.2 := by
    intro y hy
    rw [hss1] at hy
    rcases List.mem_cons.mp hy with rfl | hy'
    · exact le_refl _
    · exact List.rel_of_sorted_cons hsorted y hy'
  have hp2ne : p2 ≠ [] := by
    intro hnil; rw [hnil] at hh2; simp at hh2
  have he2mem : e2 ∈ p2 := by
    cases p2 with
    | nil => simp at hh2
    | cons a l =>
      simp only [List.head?_cons, Option.some.injEq] at hh2
      rw [← hh2]
      exact List.mem_cons_self a l
  obtain ⟨rate2, emb2, hr2, he2', hw2⟩ := v1_success_walk s1 job true p2 hp2 hp2ne
  have hmm := walk_mem_slots (sorted_slots s1 true) job.time emb2 p2 hw2 e2 he2mem
  have he2score : e2.2.1 = get_adjusted_intensity s1 e2.1 := by
    have hs := snd_eq_score_of_mem_after (mem_sorted_slots.mp hmm)
    simpa [slot_score] using hs
  have hstep1 : v1' ≤ get_adjusted_intensity s e2.1 := by
    have hm : ((e2.1 : Fin 24), slot_score s true e2.1) ∈ sorted_slots s true :=
      mem_sorted_slots.mpr (score_mem_after s true e2.1)
    have hv := hmin _ hm
    simpa [slot_score] using hv
  calc e1.2.1 = v1' := by rw [he1]
    _ ≤ get_adjusted_intensity s e2.1 := hstep1
    _ ≤ get_adjusted_intensity s1 e2.1 := hmono e2.1
    _ = e2.2.1 := he2score.symm

set_option maxHeartbeats 2000000 in
unseal Nat.gcd Rat.mul Rat.add Rat.inv Rat.ofScientific Rat.sub in
/-- Witness for the amended C8 in the two-identical-jobs scenario: the
second dampened submission's top-ranked score (120.16 at hour 0) is at
least the first's (100 at hour 0). -/
theorem dampened_top_score_monotone_witness :
    ∃ c1 s1 p1 p2 e1 e2,
      submit_job_dampened stateC jobC = some (some c1, s1) ∧
      get_best_slots_v1 stateC jobC true = some p1 ∧
      get_best_slots_v1 s1 jobC true = some p2 ∧
      p1.head? = some e1 ∧ p2.head? = some e2 ∧
      e1.2.1 ≤ e2.2.1 := by
  refine ⟨_, _, _, _, _, _, rfl, rfl, rfl, rfl, rfl, ?_⟩
  exact dampened_top_score_monotone stateC jobC _ _ (by decide) (by decide)
    (9 / 15625) (by decide) (by decide) rfl _ _ rfl rfl _ _ rfl rfl
